import Mathlib

/-!
Shallow embedding of `lbry/blob/writer.py` (`HashBlobWriter`).

Bytes are modelled as `List Nat`.  The incremental hash accumulator
(`_hashsum`, a cryptographic hash object) is modelled by the list of bytes
fed to it so far, together with a hash function `hashFn : List Nat → String`
standing for `hexdigest` of that byte stream (the concrete hash used by the
source, from `lbry.cryptoutils.get_lbry_hash_obj`, is outside this file).

The `asyncio.Future` `finished` is modelled by an explicit state `Fut`.
Side effects that the source performs through injected capabilities or on
owned objects — `pause_other_writers()`, `resume_other_writers()`,
`finished.set_result/set_exception/cancel`, `self.buffer.write(data)`,
`self._hashsum.update(data)` — are recorded as an `Event` trace so that
"invoked exactly once" style properties can be stated.

Python exceptions raised out of `write` are modelled by the `raised` field
of `WResult`; mutations performed before the raise persist in the returned
state, as they do in Python.
-/

/-- Exceptions appearing in the source: `IOError(msg)`,
`InvalidDataError` (built with the length-so-far and the expected length),
`InvalidBlobHashError` (built with the actual and the expected digest), and
`asyncio.InvalidStateError` raised by `set_result`/`set_exception` on a
future that is already done. -/
inductive PyErr where
  | ioError (msg : String)
  | invalidDataError (len_so_far expected_length : Nat)
  | invalidBlobHashError (blob_hash expected_blob_hash : String)
  | invalidStateError
  deriving DecidableEq, Repr

/-- State of the `asyncio.Future` completion handle. -/
inductive Fut where
  | pending
  | result (v : List Nat)
  | exception (e : PyErr)
  | cancelled
  deriving DecidableEq, Repr

/-- Observable side effects of the writer, in program order. -/
inductive Event where
  | pauseOthers
  | resumeOthers
  | setResult (v : List Nat)
  | setException (e : PyErr)
  | cancelFut
  | hashFed (data : List Nat)
  | bufferAppend (data : List Nat)
  deriving DecidableEq, Repr

/-- `self.finished.done()`. -/
def Fut.done : Fut → Bool
  | .pending => false
  | _ => true

theorem Fut.done_pending : Fut.pending.done = false := rfl

theorem Fut.done_result (v : List Nat) : (Fut.result v).done = true := rfl

theorem Fut.done_exception (e : PyErr) : (Fut.exception e).done = true := rfl

theorem Fut.done_cancelled : Fut.cancelled.done = true := rfl

/-- State of a `HashBlobWriter`.  `buffer = none` models `self.buffer is None`
(the `BytesIO` object is modelled by the list of bytes written to it);
`hashed` is the byte stream fed to `self._hashsum` so far. -/
structure HashBlobWriter where
  expected_blob_hash : String
  paused_others : Bool
  buffer : Option (List Nat)
  finished : Fut
  hashed : List Nat
  len_so_far : Nat
  deriving DecidableEq, Repr

/-- Result of one `write` call: the state after the call, the events emitted
during the call, and the exception the call raised, if any. -/
structure WResult where
  w : HashBlobWriter
  events : List Event
  raised : Option PyErr
  deriving DecidableEq, Repr

/-- `HashBlobWriter.__init__`: fresh writer for `expected_blob_hash`. -/
def initWriter (expected_blob_hash : String) : HashBlobWriter :=
  { expected_blob_hash := expected_blob_hash
    paused_others := false
    buffer := some []
    finished := Fut.pending
    hashed := []
    len_so_far := 0 }

/-- `HashBlobWriter.calculate_blob_hash`: `self._hashsum.hexdigest()`. -/
def calculate_blob_hash (hashFn : List Nat → String) (w : HashBlobWriter) : String :=
  hashFn w.hashed

/-- `HashBlobWriter.closed`: `self.buffer is None or self.buffer.closed`
(in this model the buffer object is present exactly while not closed). -/
def closed (w : HashBlobWriter) : Bool :=
  w.buffer.isNone

/-- `HashBlobWriter.close_handle`: cancel the future if not done, release the
buffer if present, and call `resume_other_writers()` if `paused_others`.
Note the source does not reset `paused_others` here. -/
def close_handle (w : HashBlobWriter) : HashBlobWriter × List Event :=
  let a :=
    if w.finished.done then (w, ([] : List Event))
    else ({ w with finished := Fut.cancelled }, [Event.cancelFut])
  let b :=
    match a.1.buffer with
    | some _ => { a.1 with buffer := none }
    | none => a.1
  let ev2 := if b.paused_others then [Event.resumeOthers] else []
  (b, a.2 ++ ev2)

/-- The trailing threshold check of `write`:
`if self.len_so_far >= 64000 and not self.paused_others: ...`. -/
def pauseCheck (w : HashBlobWriter) : HashBlobWriter × List Event :=
  if 64000 ≤ w.len_so_far ∧ w.paused_others = false then
    ({ w with paused_others := true }, [Event.pauseOthers])
  else (w, [])

/-- `HashBlobWriter.write`.  `lengthNow` is the value `self.get_length()`
returns during this call (`none` models Python `None`). -/
def write (hashFn : List Nat → String) (w : HashBlobWriter) (lengthNow : Option Nat)
    (data : List Nat) : WResult :=
  match lengthNow with
  | none => ⟨w, [], some (PyErr.ioError "unknown blob length")⟩
  | some expected_length =>
    if expected_length = 0 then ⟨w, [], some (PyErr.ioError "unknown blob length")⟩
    else
      match w.buffer with
      | none =>
        if w.finished.done then ⟨w, [], some (PyErr.ioError "I/O operation on closed file")⟩
        else ⟨{ w with finished := Fut.cancelled }, [Event.cancelFut], none⟩
      | some buf =>
        let len' := w.len_so_far + data.length
        let w1 := { w with hashed := w.hashed ++ data, len_so_far := len' }
        if expected_length < len' then
          if w1.finished.done then ⟨w1, [Event.hashFed data], some PyErr.invalidStateError⟩
          else
            let e := PyErr.invalidDataError len' expected_length
            let c := close_handle { w1 with finished := Fut.exception e }
            ⟨c.1, Event.hashFed data :: Event.setException e :: c.2, none⟩
        else
          let w2 := { w1 with buffer := some (buf ++ data) }
          if len' = expected_length then
            if hashFn w2.hashed = w.expected_blob_hash then
              if w2.finished.done then
                let c := close_handle w2
                let p := pauseCheck c.1
                ⟨p.1, Event.hashFed data :: Event.bufferAppend data :: (c.2 ++ p.2), none⟩
              else
                let c := close_handle { w2 with finished := Fut.result (buf ++ data) }
                let p := pauseCheck c.1
                ⟨p.1, Event.hashFed data :: Event.bufferAppend data ::
                  Event.setResult (buf ++ data) :: (c.2 ++ p.2), none⟩
            else
              if w2.finished.done then
                ⟨w2, [Event.hashFed data, Event.bufferAppend data], some PyErr.invalidStateError⟩
              else
                let e := PyErr.invalidBlobHashError (hashFn w2.hashed) w.expected_blob_hash
                let c := close_handle { w2 with finished := Fut.exception e }
                let p := pauseCheck c.1
                ⟨p.1, Event.hashFed data :: Event.bufferAppend data ::
                  Event.setException e :: (c.2 ++ p.2), none⟩
          else
            let p := pauseCheck w2
            ⟨p.1, Event.hashFed data :: Event.bufferAppend data :: p.2, none⟩

/-- A driver-side operation on the writer: a `write` call (with the value the
length provider returns at that moment) or a `close_handle` call (explicit
close, or the close performed by the completion handle's done-callback). -/
inductive Op where
  | write (lengthNow : Option Nat) (data : List Nat)
  | close
  deriving DecidableEq, Repr

/-- One operation, returning the new state and the events it emitted. -/
def step (hashFn : List Nat → String) (w : HashBlobWriter) : Op → HashBlobWriter × List Event
  | Op.write l d => let r := write hashFn w l d; (r.w, r.events)
  | Op.close => close_handle w

/-- Run a sequence of operations, concatenating the event traces. -/
def run (hashFn : List Nat → String) (w : HashBlobWriter) : List Op → HashBlobWriter × List Event
  | [] => (w, [])
  | op :: ops =>
    let r := step hashFn w op
    let rest := run hashFn r.1 ops
    (rest.1, r.2 ++ rest.2)

/-- Values the completion handle was resolved with (`set_result` events). -/
def resolutions (evs : List Event) : List (List Nat) :=
  evs.filterMap fun e => match e with | Event.setResult v => some v | _ => none

/-- Errors the completion handle was failed with (`set_exception` events). -/
def failures (evs : List Event) : List PyErr :=
  evs.filterMap fun e => match e with | Event.setException er => some er | _ => none

/-- Number of `finished.cancel()` calls in the trace. -/
def cancels (evs : List Event) : Nat :=
  evs.countP fun e => match e with | Event.cancelFut => true | _ => false

/-- Number of `pause_other_writers()` calls in the trace. -/
def pauses (evs : List Event) : Nat :=
  evs.countP fun e => match e with | Event.pauseOthers => true | _ => false

/-- Number of `resume_other_writers()` calls in the trace. -/
def resumes (evs : List Event) : Nat :=
  evs.countP fun e => match e with | Event.resumeOthers => true | _ => false

/-- The byte stream fed to the hash accumulator, per the trace. -/
def fedBytes (evs : List Event) : List Nat :=
  (evs.filterMap fun e => match e with | Event.hashFed d => some d | _ => none).flatten

/-- A concrete stand-in hash function, used to exercise the model on
concrete inputs. -/
def demoHash (l : List Nat) : String :=
  toString l.length

/-! ### Helper lemmas: single steps from a normal open state -/

/-- The state of a writer that has accepted `bytes` so far and is still open:
future pending, buffer and hash accumulator both holding `bytes`. -/
def openState (eh : String) (bytes : List Nat) (p : Bool) : HashBlobWriter :=
  { expected_blob_hash := eh
    paused_others := p
    buffer := some bytes
    finished := Fut.pending
    hashed := bytes
    len_so_far := bytes.length }

theorem initWriter_eq_openState (eh : String) : initWriter eh = openState eh [] false := rfl

theorem mk_eq_openState (eh : String) (bytes : List Nat) (p : Bool) (n : Nat)
    (hn : n = bytes.length) :
    (⟨eh, p, some bytes, Fut.pending, bytes, n⟩ : HashBlobWriter) = openState eh bytes p := by
  subst hn; rfl

/-- An accepted `write` that stays strictly below the expected length. -/
theorem write_open_below (hashFn : List Nat → String) (eh : String) (bytes d : List Nat)
    (p : Bool) (L : Nat) (h : bytes.length + d.length < L) :
    write hashFn (openState eh bytes p) (some L) d =
      ⟨⟨eh, if 64000 ≤ bytes.length + d.length ∧ p = false then true else p,
          some (bytes ++ d), Fut.pending, bytes ++ d, bytes.length + d.length⟩,
        Event.hashFed d :: Event.bufferAppend d ::
          (if 64000 ≤ bytes.length + d.length ∧ p = false then [Event.pauseOthers] else []),
        none⟩ := by
  have hL0 : ¬ (L = 0) := by omega
  have hlt : ¬ (L < bytes.length + d.length) := by omega
  have hne : ¬ (bytes.length + d.length = L) := by omega
  simp only [write, openState, pauseCheck, Fut.done]
  rw [if_neg hL0]
  simp only [hlt, hne, if_false, ite_false]
  split <;> rfl

/-- The `write` that completes the block with a matching digest. -/
theorem write_open_complete_match (hashFn : List Nat → String) (eh : String)
    (bytes d : List Nat) (p : Bool) (L : Nat)
    (heq : bytes.length + d.length = L) (hL0 : 0 < L)
    (hhash : hashFn (bytes ++ d) = eh) :
    write hashFn (openState eh bytes p) (some L) d =
      ⟨⟨eh, if 64000 ≤ bytes.length + d.length ∧ p = false then true else p,
          none, Fut.result (bytes ++ d), bytes ++ d, bytes.length + d.length⟩,
        Event.hashFed d :: Event.bufferAppend d :: Event.setResult (bytes ++ d) ::
          ((if p then [Event.resumeOthers] else []) ++
            (if 64000 ≤ bytes.length + d.length ∧ p = false then [Event.pauseOthers] else [])),
        none⟩ := by
  have hL0' : ¬ (L = 0) := by omega
  have hlt : ¬ (L < bytes.length + d.length) := by omega
  cases p <;> by_cases h64 : 64000 ≤ L <;>
    simp [write, openState, close_handle, pauseCheck, Fut.done, hL0', hlt, heq, hhash, h64]

/-- The `write` that completes the block with a digest mismatch. -/
theorem write_open_complete_mismatch (hashFn : List Nat → String) (eh : String)
    (bytes d : List Nat) (p : Bool) (L : Nat)
    (heq : bytes.length + d.length = L) (hL0 : 0 < L)
    (hhash : ¬ (hashFn (bytes ++ d) = eh)) :
    write hashFn (openState eh bytes p) (some L) d =
      ⟨⟨eh, if 64000 ≤ bytes.length + d.length ∧ p = false then true else p,
          none, Fut.exception (PyErr.invalidBlobHashError (hashFn (bytes ++ d)) eh),
          bytes ++ d, bytes.length + d.length⟩,
        Event.hashFed d :: Event.bufferAppend d ::
          Event.setException (PyErr.invalidBlobHashError (hashFn (bytes ++ d)) eh) ::
          ((if p then [Event.resumeOthers] else []) ++
            (if 64000 ≤ bytes.length + d.length ∧ p = false then [Event.pauseOthers] else [])),
        none⟩ := by
  have hL0' : ¬ (L = 0) := by omega
  have hlt : ¬ (L < bytes.length + d.length) := by omega
  cases p <;> by_cases h64 : 64000 ≤ L <;>
    simp [write, openState, close_handle, pauseCheck, Fut.done, hL0', hlt, heq, hhash, h64]

/-- Once the writer is closed and the future is done, further `write` calls
change nothing and emit nothing. -/
theorem run_writes_closed_done (hashFn : List Nat → String) (w : HashBlobWriter)
    (hbuf : w.buffer = none) (hdone : w.finished.done = true) (l : Option Nat)
    (cs : List (List Nat)) :
    run hashFn w (cs.map (Op.write l)) = (w, []) := by
  induction cs with
  | nil => rfl
  | cons c cs ih =>
    have hw : write hashFn w l c = ⟨w, [], (write hashFn w l c).raised⟩ := by
      cases l with
      | none => rfl
      | some L =>
        simp only [write]
        by_cases hL : L = 0
        · simp [hL]
        · rw [if_neg hL, hbuf]
          simp [hdone]
    simp only [List.map, run, step]
    rw [hw]
    simp [ih]

theorem resolutions_append (a b : List Event) :
    resolutions (a ++ b) = resolutions a ++ resolutions b := by
  simp [resolutions]

theorem failures_append (a b : List Event) :
    failures (a ++ b) = failures a ++ failures b := by
  simp [failures]

theorem cancels_append (a b : List Event) :
    cancels (a ++ b) = cancels a + cancels b := by
  simp [cancels]

/-- Driving a whole block through an open writer: if the chunks reach the
expected length exactly, the run closes the writer, never cancels the future,
and resolves it with the full byte stream when the digest matches, or fails it
with an `InvalidBlobHashError` when it does not. -/
theorem run_open_total (hashFn : List Nat → String) (eh : String) (L : Nat)
    (cs : List (List Nat)) :
    ∀ (bytes : List Nat) (p : Bool),
      bytes.length + cs.flatten.length = L →
      0 < cs.flatten.length →
      (run hashFn (openState eh bytes p) (cs.map (Op.write (some L)))).1.buffer = none ∧
      cancels (run hashFn (openState eh bytes p) (cs.map (Op.write (some L)))).2 = 0 ∧
      (hashFn (bytes ++ cs.flatten) = eh →
        resolutions (run hashFn (openState eh bytes p) (cs.map (Op.write (some L)))).2 =
          [bytes ++ cs.flatten] ∧
        failures (run hashFn (openState eh bytes p) (cs.map (Op.write (some L)))).2 = []) ∧
      (¬ hashFn (bytes ++ cs.flatten) = eh →
        resolutions (run hashFn (openState eh bytes p) (cs.map (Op.write (some L)))).2 = [] ∧
        failures (run hashFn (openState eh bytes p) (cs.map (Op.write (some L)))).2 =
          [PyErr.invalidBlobHashError (hashFn (bytes ++ cs.flatten)) eh]) := by
  induction cs with
  | nil =>
    intro bytes p h hpos
    simp at hpos
  | cons c cs ih =>
    intro bytes p h hpos
    have hlen : bytes.length + (c.length + cs.flatten.length) = L := by
      simpa [List.length_append] using h
    by_cases hc : bytes.length + c.length = L
    · have h0 : cs.flatten.length = 0 := by omega
      have hnil : cs.flatten = [] := List.eq_nil_of_length_eq_zero h0
      have hL0 : 0 < L := by omega
      by_cases hh : hashFn (bytes ++ c) = eh
      · simp only [List.map_cons, run, step,
          write_open_complete_match hashFn eh bytes c p L hc hL0 hh]
        rw [run_writes_closed_done hashFn _ (by rfl) (by rfl) (some L) cs]
        refine ⟨rfl, ?_, ?_, ?_⟩
        · split_ifs <;> simp [cancels]
        · intro _
          constructor
          · split_ifs <;> simp [resolutions, hnil]
          · split_ifs <;> simp [failures, hnil]
        · intro hcon
          exact absurd (by simpa [hnil] using hh) hcon
      · simp only [List.map_cons, run, step,
          write_open_complete_mismatch hashFn eh bytes c p L hc hL0 hh]
        rw [run_writes_closed_done hashFn _ (by rfl) (by rfl) (some L) cs]
        refine ⟨rfl, ?_, ?_, ?_⟩
        · split_ifs <;> simp [cancels]
        · intro hcon
          exact absurd (by simpa [hnil] using hcon) hh
        · intro _
          constructor
          · split_ifs <;> simp [resolutions, hnil]
          · split_ifs <;> simp [failures, hnil]
    · have hlt2 : bytes.length + c.length < L := by omega
      have hpos' : 0 < cs.flatten.length := by omega
      have h' : (bytes ++ c).length + cs.flatten.length = L := by
        simp only [List.length_append]
        omega
      by_cases hth : 64000 ≤ bytes.length + c.length ∧ p = false
      · simp only [List.map_cons, run, step, write_open_below hashFn eh bytes c p L hlt2,
          if_pos hth]
        rw [mk_eq_openState eh (bytes ++ c) true (bytes.length + c.length)
          (List.length_append bytes c).symm]
        obtain ⟨ihbuf, ihcan, ihpos, ihneg⟩ := ih (bytes ++ c) true h' hpos'
        refine ⟨ihbuf, ?_, ?_, ?_⟩
        · rw [cancels_append, ihcan]
          simp [cancels]
        · intro hmatch
          have hmatch' : hashFn ((bytes ++ c) ++ cs.flatten) = eh := by
            simpa [List.append_assoc] using hmatch
          obtain ⟨hres, hfail⟩ := ihpos hmatch'
          constructor
          · rw [resolutions_append, hres]
            simp [resolutions, List.append_assoc]
          · rw [failures_append, hfail]
            simp [failures]
        · intro hcon
          have hcon' : ¬ hashFn ((bytes ++ c) ++ cs.flatten) = eh := by
            simpa [List.append_assoc] using hcon
          obtain ⟨hres, hfail⟩ := ihneg hcon'
          constructor
          · rw [resolutions_append, hres]
            simp [resolutions]
          · rw [failures_append, hfail]
            simp [failures, List.append_assoc]
      · simp only [List.map_cons, run, step, write_open_below hashFn eh bytes c p L hlt2,
          if_neg hth]
        rw [mk_eq_openState eh (bytes ++ c) p (bytes.length + c.length)
          (List.length_append bytes c).symm]
        obtain ⟨ihbuf, ihcan, ihpos, ihneg⟩ := ih (bytes ++ c) p h' hpos'
        refine ⟨ihbuf, ?_, ?_, ?_⟩
        · rw [cancels_append, ihcan]
          simp [cancels]
        · intro hmatch
          have hmatch' : hashFn ((bytes ++ c) ++ cs.flatten) = eh := by
            simpa [List.append_assoc] using hmatch
          obtain ⟨hres, hfail⟩ := ihpos hmatch'
          constructor
          · rw [resolutions_append, hres]
            simp [resolutions, List.append_assoc]
          · rw [failures_append, hfail]
            simp [failures]
        · intro hcon
          have hcon' : ¬ hashFn ((bytes ++ c) ++ cs.flatten) = eh := by
            simpa [List.append_assoc] using hcon
          obtain ⟨hres, hfail⟩ := ihneg hcon'
          constructor
          · rw [resolutions_append, hres]
            simp [resolutions]
          · rw [failures_append, hfail]
            simp [failures, List.append_assoc]

/-! ### Claim theorems -/

/-- C1: for every sequence of `write(chunk)` calls on an open writer whose
concatenation has length equal to the (necessarily non-zero, since the source
treats 0 as "unknown") value returned by the length provider and whose digest
equals the expected content address, the completion handle is resolved exactly
once, with the exact concatenation of those chunks, it is never failed or
cancelled, and afterward `closed()` returns true. -/
theorem C1_complete_valid_resolves_once (hashFn : List Nat → String) (eh : String)
    (cs : List (List Nat)) (L : Nat)
    (hlen : cs.flatten.length = L) (hpos : 0 < L)
    (hhash : hashFn cs.flatten = eh) :
    resolutions (run hashFn (initWriter eh) (cs.map (Op.write (some L)))).2 = [cs.flatten] ∧
    failures (run hashFn (initWriter eh) (cs.map (Op.write (some L)))).2 = [] ∧
    cancels (run hashFn (initWriter eh) (cs.map (Op.write (some L)))).2 = 0 ∧
    closed (run hashFn (initWriter eh) (cs.map (Op.write (some L)))).1 = true := by
  have h : ([] : List Nat).length + cs.flatten.length = L := by simpa using hlen
  have hpos' : 0 < cs.flatten.length := by omega
  obtain ⟨hbuf, hcan, hp, hn⟩ := run_open_total hashFn eh L cs [] false h hpos'
  have hh' : hashFn ([] ++ cs.flatten) = eh := by simpa using hhash
  obtain ⟨hres, hfail⟩ := hp hh'
  rw [initWriter_eq_openState]
  exact ⟨by simpa using hres, by simpa using hfail, by simpa using hcan, by simp [closed, hbuf]⟩

theorem C1_witness :
    (([[1, 2], [3]] : List (List Nat)).flatten.length = 3) ∧ ((0 : Nat) < 3) ∧
    (demoHash ([[1, 2], [3]] : List (List Nat)).flatten = "3") ∧
    (resolutions (run demoHash (initWriter "3")
        (([[1, 2], [3]] : List (List Nat)).map (Op.write (some 3)))).2 =
        [([[1, 2], [3]] : List (List Nat)).flatten] ∧
      failures (run demoHash (initWriter "3")
        (([[1, 2], [3]] : List (List Nat)).map (Op.write (some 3)))).2 = [] ∧
      cancels (run demoHash (initWriter "3")
        (([[1, 2], [3]] : List (List Nat)).map (Op.write (some 3)))).2 = 0 ∧
      closed (run demoHash (initWriter "3")
        (([[1, 2], [3]] : List (List Nat)).map (Op.write (some 3)))).1 = true) :=
  ⟨by decide, by decide, by decide,
    C1_complete_valid_resolves_once demoHash "3" [[1, 2], [3]] 3 (by decide) (by decide)
      (by decide)⟩

/-- C3: for every sequence of `write(chunk)` calls whose concatenation has
exactly the expected (non-zero) length but whose digest does not equal the
expected content address, the completion handle is failed with a
hash-mismatch error reporting the actual versus the expected digest, the
writer is closed afterward, and the handle is never resolved with a value. -/
theorem C3_complete_mismatch_fails (hashFn : List Nat → String) (eh : String)
    (cs : List (List Nat)) (L : Nat)
    (hlen : cs.flatten.length = L) (hpos : 0 < L)
    (hhash : ¬ hashFn cs.flatten = eh) :
    resolutions (run hashFn (initWriter eh) (cs.map (Op.write (some L)))).2 = [] ∧
    failures (run hashFn (initWriter eh) (cs.map (Op.write (some L)))).2 =
      [PyErr.invalidBlobHashError (hashFn cs.flatten) eh] ∧
    closed (run hashFn (initWriter eh) (cs.map (Op.write (some L)))).1 = true := by
  have h : ([] : List Nat).length + cs.flatten.length = L := by simpa using hlen
  have hpos' : 0 < cs.flatten.length := by omega
  obtain ⟨hbuf, hcan, hp, hn⟩ := run_open_total hashFn eh L cs [] false h hpos'
  have hh' : ¬ hashFn ([] ++ cs.flatten) = eh := by simpa using hhash
  obtain ⟨hres, hfail⟩ := hn hh'
  rw [initWriter_eq_openState]
  exact ⟨by simpa using hres, by simpa using hfail, by simp [closed, hbuf]⟩

theorem C3_witness :
    (([[1, 2], [3]] : List (List Nat)).flatten.length = 3) ∧ ((0 : Nat) < 3) ∧
    (¬ demoHash ([[1, 2], [3]] : List (List Nat)).flatten = "nope") ∧
    (resolutions (run demoHash (initWriter "nope")
        (([[1, 2], [3]] : List (List Nat)).map (Op.write (some 3)))).2 = [] ∧
      failures (run demoHash (initWriter "nope")
        (([[1, 2], [3]] : List (List Nat)).map (Op.write (some 3)))).2 =
        [PyErr.invalidBlobHashError (demoHash ([[1, 2], [3]] : List (List Nat)).flatten) "nope"] ∧
      closed (run demoHash (initWriter "nope")
        (([[1, 2], [3]] : List (List Nat)).map (Op.write (some 3)))).1 = true) :=
  ⟨by decide, by decide, by decide,
    C3_complete_mismatch_fails demoHash "nope" [[1, 2], [3]] 3 (by decide) (by decide)
      (by decide)⟩

/-- C2: a `write(chunk)` on an open writer (buffer present, handle pending)
that pushes `len_so_far` past the expected length fails the completion handle
with an `InvalidDataError` carrying both the actual and the expected totals,
closes the writer, hashes and counts the overflowing chunk before the check
fires, never appends it to the buffer, and further chunks are rejected
without being processed. -/
theorem C2_overflow_fails (hashFn : List Nat → String) (w : HashBlobWriter)
    (L : Nat) (d buf : List Nat)
    (hbuf : w.buffer = some buf) (hfin : w.finished = Fut.pending)
    (hL0 : ¬ L = 0) (hover : L < w.len_so_far + d.length) :
    write hashFn w (some L) d =
      ⟨⟨w.expected_blob_hash, w.paused_others, none,
          Fut.exception (PyErr.invalidDataError (w.len_so_far + d.length) L),
          w.hashed ++ d, w.len_so_far + d.length⟩,
        Event.hashFed d ::
          Event.setException (PyErr.invalidDataError (w.len_so_far + d.length) L) ::
          (if w.paused_others then [Event.resumeOthers] else []),
        none⟩ ∧
    closed (write hashFn w (some L) d).w = true ∧
    (∀ x, Event.bufferAppend x ∉ (write hashFn w (some L) d).events) ∧
    resolutions (write hashFn w (some L) d).events = [] ∧
    failures (write hashFn w (some L) d).events =
      [PyErr.invalidDataError (w.len_so_far + d.length) L] ∧
    (∀ d2, write hashFn (write hashFn w (some L) d).w (some L) d2 =
      ⟨(write hashFn w (some L) d).w, [], some (PyErr.ioError "I/O operation on closed file")⟩) := by
  obtain ⟨eh, p, b, f, hs, n⟩ := w
  simp only at hbuf hfin hover ⊢
  subst hbuf
  subst hfin
  have key : write hashFn (⟨eh, p, some buf, Fut.pending, hs, n⟩ : HashBlobWriter) (some L) d =
      ⟨⟨eh, p, none, Fut.exception (PyErr.invalidDataError (n + d.length) L),
          hs ++ d, n + d.length⟩,
        Event.hashFed d ::
          Event.setException (PyErr.invalidDataError (n + d.length) L) ::
          (if p then [Event.resumeOthers] else []),
        none⟩ := by
    cases p <;> simp [write, close_handle, Fut.done, hL0, hover]
  refine ⟨key, ?_, ?_, ?_, ?_, ?_⟩
  · rw [key]
    rfl
  · intro x
    rw [key]
    cases p <;> simp
  · rw [key]
    cases p <;> simp [resolutions]
  · rw [key]
    cases p <;> simp [failures]
  · intro d2
    rw [key]
    simp [write, Fut.done, hL0]

theorem C2_witness :
    ((⟨"h", false, some [], Fut.pending, [], 0⟩ : HashBlobWriter).buffer = some []) ∧
    ((⟨"h", false, some [], Fut.pending, [], 0⟩ : HashBlobWriter).finished = Fut.pending) ∧
    (¬ (1 : Nat) = 0) ∧
    ((1 : Nat) < (⟨"h", false, some [], Fut.pending, [], 0⟩ : HashBlobWriter).len_so_far +
      ([0, 0] : List Nat).length) ∧
    (write demoHash (⟨"h", false, some [], Fut.pending, [], 0⟩ : HashBlobWriter) (some 1) [0, 0] =
      ⟨⟨"h", false, none, Fut.exception (PyErr.invalidDataError 2 1), [0, 0], 2⟩,
        [Event.hashFed [0, 0], Event.setException (PyErr.invalidDataError 2 1)], none⟩) :=
  ⟨rfl, rfl, by decide, by decide, by
    have h := (C2_overflow_fails demoHash ⟨"h", false, some [], Fut.pending, [], 0⟩ 1 [0, 0] []
      rfl rfl (by decide) (by decide)).1
    simpa using h⟩

/-- C7: when the length provider reports unknown (`None`), `write` fails with
the unknown-length `IOError` and changes nothing, whatever the writer's state
(in particular this takes precedence over the closed-writer behaviour, since
it holds for closed states too). -/
theorem C7_unknown_length_no_change (hashFn : List Nat → String) (w : HashBlobWriter)
    (d : List Nat) :
    write hashFn w none d = ⟨w, [], some (PyErr.ioError "unknown blob length")⟩ := rfl

/-- C10: a length-provider value of the integer 0 is falsy in the source's
`if not expected_length` check, so `write` fails with the very same
unknown-length `IOError` as an unknown length and changes nothing: a block
whose declared expected length is 0 can never be written or completed. -/
theorem C10_zero_length_is_unknown (hashFn : List Nat → String) (w : HashBlobWriter)
    (d : List Nat) :
    write hashFn w (some 0) d = ⟨w, [], some (PyErr.ioError "unknown blob length")⟩ ∧
    write hashFn w (some 0) d = write hashFn w none d :=
  ⟨rfl, rfl⟩

/-- C8: a `write(chunk)` on an already-closed writer (buffer absent) with a
known (non-zero) length cancels a still-pending completion handle and returns
without error; if the handle is already final it fails with the closed-file
`IOError`; in neither case does it touch the absent buffer or change anything
else. -/
theorem C8_closed_writer_write (hashFn : List Nat → String) (w : HashBlobWriter)
    (L : Nat) (d : List Nat)
    (hbuf : w.buffer = none) (hL0 : ¬ L = 0) :
    (w.finished.done = false →
      write hashFn w (some L) d =
        ⟨{ w with finished := Fut.cancelled }, [Event.cancelFut], none⟩) ∧
    (w.finished.done = true →
      write hashFn w (some L) d =
        ⟨w, [], some (PyErr.ioError "I/O operation on closed file")⟩) := by
  constructor <;> intro hdone <;> simp [write, hL0, hbuf, hdone]

theorem C8_witness :
    ((⟨"h", false, none, Fut.pending, [], 0⟩ : HashBlobWriter).buffer = none) ∧
    (¬ (1 : Nat) = 0) ∧
    (((⟨"h", false, none, Fut.pending, [], 0⟩ : HashBlobWriter).finished.done = false →
      write demoHash (⟨"h", false, none, Fut.pending, [], 0⟩ : HashBlobWriter) (some 1) [7] =
        ⟨{ (⟨"h", false, none, Fut.pending, [], 0⟩ : HashBlobWriter) with
            finished := Fut.cancelled }, [Event.cancelFut], none⟩) ∧
    ((⟨"h", false, none, Fut.pending, [], 0⟩ : HashBlobWriter).finished.done = true →
      write demoHash (⟨"h", false, none, Fut.pending, [], 0⟩ : HashBlobWriter) (some 1) [7] =
        ⟨(⟨"h", false, none, Fut.pending, [], 0⟩ : HashBlobWriter), [],
          some (PyErr.ioError "I/O operation on closed file")⟩)) :=
  ⟨rfl, by decide,
    C8_closed_writer_write demoHash ⟨"h", false, none, Fut.pending, [], 0⟩ 1 [7] rfl (by decide)⟩

theorem fedBytes_append (a b : List Event) : fedBytes (a ++ b) = fedBytes a ++ fedBytes b := by
  simp [fedBytes]

/-- Any single operation extends the hash accumulator by exactly the bytes it
feeds (per the `hashFed` events), and advances `len_so_far` by their number. -/
theorem step_hashed (hashFn : List Nat → String) (w : HashBlobWriter) (op : Op) :
    (step hashFn w op).1.hashed = w.hashed ++ fedBytes (step hashFn w op).2 ∧
    (step hashFn w op).1.len_so_far = w.len_so_far + (fedBytes (step hashFn w op).2).length := by
  cases op with
  | close =>
    simp only [step, close_handle]
    split_ifs <;> cases hb : w.buffer <;> simp [fedBytes, hb]
  | write l d =>
    cases l with
    | none => simp [step, write, fedBytes]
    | some L =>
      by_cases hL : L = 0
      · simp [step, write, hL, fedBytes]
      · cases hb : w.buffer with
        | none =>
          by_cases hdone : w.finished.done <;> simp [step, write, hL, hb, hdone, fedBytes]
        | some buf =>
          by_cases hover : L < w.len_so_far + d.length
          · by_cases hdone : w.finished.done = true <;>
              simp [step, write, close_handle, Fut.done_exception, hL, hb, hover, hdone,
                fedBytes] <;>
              split_ifs <;> simp [fedBytes]
          · by_cases heq : w.len_so_far + d.length = L
            · by_cases hhash : hashFn (w.hashed ++ d) = w.expected_blob_hash <;>
                by_cases hdone : w.finished.done = true <;>
                simp [step, write, close_handle, pauseCheck, Fut.done_result,
                  Fut.done_exception, hL, hb, hover, heq, hhash, hdone, fedBytes] <;>
                split_ifs <;> simp [fedBytes] <;> omega
            · simp only [step, write]
              simp only [hL, hb, if_neg hover, if_neg heq, ite_false]
              simp only [pauseCheck]
              split_ifs <;> simp [fedBytes]

/-- Over any run, the hash accumulator holds exactly the concatenation of the
fed chunks, in order, and `len_so_far` is its length. -/
theorem run_hashed (hashFn : List Nat → String) (ops : List Op) :
    ∀ w : HashBlobWriter,
      (run hashFn w ops).1.hashed = w.hashed ++ fedBytes (run hashFn w ops).2 ∧
      (run hashFn w ops).1.len_so_far =
        w.len_so_far + (fedBytes (run hashFn w ops).2).length := by
  induction ops with
  | nil => intro w; simp [run, fedBytes]
  | cons op ops ih =>
    intro w
    obtain ⟨h1, h2⟩ := step_hashed hashFn w op
    obtain ⟨h3, h4⟩ := ih (step hashFn w op).1
    simp only [run]
    constructor
    · rw [h3, h1, fedBytes_append, List.append_assoc]
    · rw [h4, h2, fedBytes_append, List.length_append]
      omega

/-- C9: after any sequence of operations — writes accepted or rejected,
closes included, so both before and after closing — the hash accumulator
contains exactly the bytes fed so far, in arrival order with no gaps or
repeats, `len_so_far` counts exactly those bytes, and `calculate_blob_hash`
is the digest of exactly that byte stream. -/
theorem C9_digest_exactly_fed_bytes (hashFn : List Nat → String) (eh : String)
    (ops : List Op) :
    (run hashFn (initWriter eh) ops).1.hashed = fedBytes (run hashFn (initWriter eh) ops).2 ∧
    (run hashFn (initWriter eh) ops).1.len_so_far =
      (fedBytes (run hashFn (initWriter eh) ops).2).length ∧
    calculate_blob_hash hashFn (run hashFn (initWriter eh) ops).1 =
      hashFn (fedBytes (run hashFn (initWriter eh) ops).2) := by
  obtain ⟨h1, h2⟩ := run_hashed hashFn ops (initWriter eh)
  refine ⟨by simpa [initWriter] using h1, by simpa [initWriter] using h2, ?_⟩
  rw [calculate_blob_hash]
  rw [show (run hashFn (initWriter eh) ops).1.hashed =
    fedBytes (run hashFn (initWriter eh) ops).2 from by simpa [initWriter] using h1]

/-- A 64,000-byte chunk, crossing the pause threshold in one write. -/
def chunk64000 : List Nat := List.replicate 64000 0

/-- A further 6,000-byte chunk, completing a 70,000-byte block. -/
def chunk6000 : List Nat := List.replicate 6000 0

theorem chunk64000_length : chunk64000.length = 64000 := by
  rw [chunk64000, List.length_replicate]

theorem chunk6000_length : chunk6000.length = 6000 := by
  rw [chunk6000, List.length_replicate]

/-- Generic form of the double-close trace: one write of 64,000 bytes with a
declared length of 70,000, then two `close_handle` calls. -/
theorem close_close_after_pause (hashFn : List Nat → String) (eh : String) (b : List Nat)
    (hb : b.length = 64000) :
    pauses (run hashFn (initWriter eh) [Op.write (some 70000) b, Op.close, Op.close]).2 = 1 ∧
    resumes (run hashFn (initWriter eh) [Op.write (some 70000) b, Op.close, Op.close]).2 = 2 ∧
    (run hashFn (initWriter eh)
      [Op.write (some 70000) b, Op.close, Op.close]).1.paused_others = true := by
  have hlt : ([] : List Nat).length + b.length < 70000 := by simp [hb]
  have h1 := write_open_below hashFn eh [] b false 70000 hlt
  rw [initWriter_eq_openState]
  simp only [run, step]
  rw [h1]
  norm_num [hb, close_handle, Fut.done_pending, Fut.done_cancelled,
    pauses, resumes, List.countP_cons, List.countP_nil, List.countP_append]

/-- C4 (code bug): a writer that crossed the pause threshold and is then
closed twice in a row calls `resume_other_writers` on BOTH closes, and
`paused_others` is still true afterwards: `close_handle` never clears the
flag, so the second close is not a no-op with respect to resume. -/
theorem C4_double_close_double_resume :
    pauses (run (fun _ => "h") (initWriter "h")
      [Op.write (some 70000) chunk64000, Op.close, Op.close]).2 = 1 ∧
    resumes (run (fun _ => "h") (initWriter "h")
      [Op.write (some 70000) chunk64000, Op.close, Op.close]).2 = 2 ∧
    (run (fun _ => "h") (initWriter "h")
      [Op.write (some 70000) chunk64000, Op.close, Op.close]).1.paused_others = true :=
  close_close_after_pause (fun _ => "h") "h" chunk64000 chunk64000_length

/-- Generic form of the threshold-then-completion trace: a write of 64,000
bytes, a write of 6,000 bytes completing the declared 70,000, then one more
`close_handle` (the completion handle's done-callback, or an explicit
close). -/
theorem pause_complete_close (hashFn : List Nat → String) (eh : String) (b c : List Nat)
    (hb : b.length = 64000) (hc : c.length = 6000) (hhash : hashFn (b ++ c) = eh) :
    pauses (run hashFn (initWriter eh)
      [Op.write (some 70000) b, Op.write (some 70000) c, Op.close]).2 = 1 ∧
    resumes (run hashFn (initWriter eh)
      [Op.write (some 70000) b, Op.write (some 70000) c, Op.close]).2 = 2 := by
  have hlt : ([] : List Nat).length + b.length < 70000 := by simp [hb]
  have h1 := write_open_below hashFn eh [] b false 70000 hlt
  have h2 := write_open_complete_match hashFn eh b c true 70000 (by simp [hb, hc])
    (by norm_num) hhash
  rw [initWriter_eq_openState]
  simp only [run, step]
  rw [h1]
  norm_num [hb]
  rw [mk_eq_openState eh b true 64000 hb.symm]
  rw [h2]
  norm_num [hb, hc, close_handle, Fut.done_result, Fut.done_pending,
    pauses, resumes, List.countP_cons, List.countP_nil, List.countP_append]

/-- C5 (code bug): over a lifetime that crosses the 64,000-byte threshold and
then completes the block, `pause_other_writers` is invoked exactly once, but
`resume_other_writers` is invoked twice: once by the `close_handle` run when
the block completes inside `write`, and once more by the next `close_handle`
(the completion handle's done-callback, or an explicit close) because the
source never clears `paused_others`. -/
theorem C5_resume_twice_per_lifetime :
    pauses (run (fun _ => "h") (initWriter "h")
      [Op.write (some 70000) chunk64000, Op.write (some 70000) chunk6000, Op.close]).2 = 1 ∧
    resumes (run (fun _ => "h") (initWriter "h")
      [Op.write (some 70000) chunk64000, Op.write (some 70000) chunk6000, Op.close]).2 = 2 :=
  pause_complete_close (fun _ => "h") "h" chunk64000 chunk6000
    chunk64000_length chunk6000_length rfl

/-- Generic form of the write that both completes the block and crosses the
threshold in one call. -/
theorem complete_and_cross_no_resume (hashFn : List Nat → String) (eh : String)
    (b : List Nat) (hb : b.length = 64000) (hhash : hashFn ([] ++ b) = eh) :
    Event.pauseOthers ∈ (write hashFn (initWriter eh) (some 64000) b).events ∧
    Event.resumeOthers ∉ (write hashFn (initWriter eh) (some 64000) b).events := by
  have h := write_open_complete_match hashFn eh [] b false 64000 (by simp [hb])
    (by norm_num) hhash
  rw [initWriter_eq_openState, h]
  norm_num [hb]
  refine ⟨?_, ?_, ?_, ?_⟩ <;> rintro ⟨⟩

/-- C6 counterexample: on the single `write` that both completes the block
and crosses the 64,000-byte threshold with siblings not yet paused,
`pause_other_writers` is invoked but `resume_other_writers` is NOT invoked
within that same call — the completion branch's `close_handle()` runs before
the pause check sets `paused_others`, so no resume follows the pause inside
the call. -/
theorem C6_counterexample :
    Event.pauseOthers ∈
      (write (fun _ => "h") (initWriter "h") (some 64000) chunk64000).events ∧
    Event.resumeOthers ∉
      (write (fun _ => "h") (initWriter "h") (some 64000) chunk64000).events :=
  complete_and_cross_no_resume (fun _ => "h") "h" chunk64000 chunk64000_length rfl

/-- C6 amended: on a `write` that completes the block and crosses the
64,000-byte threshold with siblings not yet paused, `pause_other_writers` is
invoked exactly once within that call, after the writer is closed;
`resume_other_writers` is not invoked within that call, and it is invoked by
the next `close_handle` (for instance the one run by the completion handle's
done-callback). -/
theorem C6_amended_pause_after_close (hashFn : List Nat → String) (w : HashBlobWriter)
    (L : Nat) (d buf : List Nat)
    (hbuf : w.buffer = some buf) (hfin : w.finished = Fut.pending)
    (hp : w.paused_others = false)
    (heq : w.len_so_far + d.length = L) (hth : 64000 ≤ L) :
    pauses (write hashFn w (some L) d).events = 1 ∧
    resumes (write hashFn w (some L) d).events = 0 ∧
    (write hashFn w (some L) d).w.paused_others = true ∧
    closed (write hashFn w (some L) d).w = true ∧
    resumes (close_handle (write hashFn w (some L) d).w).2 = 1 := by
  obtain ⟨eh, p, b, f, hs, n⟩ := w
  simp only at hbuf hfin hp heq ⊢
  subst hbuf
  subst hfin
  subst hp
  have hL0' : ¬ L = 0 := by omega
  have hlt : ¬ L < n + d.length := by omega
  by_cases hh : hashFn (hs ++ d) = eh <;>
    simp [write, close_handle, pauseCheck, Fut.done_pending, Fut.done_result,
      Fut.done_exception, hL0', hlt, heq, hh, hth, closed, pauses, resumes]

theorem C6_amended_witness :
    ((⟨"h", false, some [1], Fut.pending, [1], 63999⟩ : HashBlobWriter).buffer = some [1]) ∧
    ((⟨"h", false, some [1], Fut.pending, [1], 63999⟩ : HashBlobWriter).finished =
      Fut.pending) ∧
    ((⟨"h", false, some [1], Fut.pending, [1], 63999⟩ : HashBlobWriter).paused_others =
      false) ∧
    ((⟨"h", false, some [1], Fut.pending, [1], 63999⟩ : HashBlobWriter).len_so_far +
      ([5] : List Nat).length = 64000) ∧
    ((64000 : Nat) ≤ 64000) ∧
    (pauses (write demoHash (⟨"h", false, some [1], Fut.pending, [1], 63999⟩ :
        HashBlobWriter) (some 64000) [5]).events = 1 ∧
      resumes (write demoHash (⟨"h", false, some [1], Fut.pending, [1], 63999⟩ :
        HashBlobWriter) (some 64000) [5]).events = 0 ∧
      (write demoHash (⟨"h", false, some [1], Fut.pending, [1], 63999⟩ :
        HashBlobWriter) (some 64000) [5]).w.paused_others = true ∧
      closed (write demoHash (⟨"h", false, some [1], Fut.pending, [1], 63999⟩ :
        HashBlobWriter) (some 64000) [5]).w = true ∧
      resumes (close_handle (write demoHash (⟨"h", false, some [1], Fut.pending, [1],
        63999⟩ : HashBlobWriter) (some 64000) [5]).w).2 = 1) :=
  ⟨rfl, rfl, rfl, by decide, by decide,
    C6_amended_pause_after_close demoHash
      ⟨"h", false, some [1], Fut.pending, [1], 63999⟩
      64000 [5] [1] rfl rfl rfl (by decide) (by decide)⟩
